import Mathlib

/-!
Verification of the full-text-search-engine core (Go sources under src/):
the analyzer filter chain (src/utils/index_interface.go, filter section),
the sequential inverted index (src/unnamed/part_001, the revision whose
`Add` ends with `calculateIDF`), and the concurrent inverted index
(src/utils/index_concurrent.go, the revision whose `Search` computes IDF
lazily from the live docCount), linearized.

Modelling conventions:
- Go float32/float64 arithmetic is abstracted to real numbers.
- Go maps are modelled as association lists; Go's map iteration order is
  unspecified, so every place where that order is observable (the results
  slice fed to sort.Slice) is modelled relationally: a predicate describes
  the set of lists the code may return.
- sort.Slice is modelled by its contract: the output is a permutation of
  the input that is pairwise non-descending for the supplied comparator
  (the comparator in all Search methods is score-only:
  results[i].Score > results[j].Score).
-/

set_option maxHeartbeats 1000000

/-- Modelled from Go's unicode.IsLetter, restricted to the Basic Latin and
Latin-1 blocks, which are the only code points this development evaluates it
on; on those blocks it agrees with the Go unicode tables. -/
def goIsLetter (c : Char) : Bool :=
  (('a' ≤ c) && (c ≤ 'z')) || (('A' ≤ c) && (c ≤ 'Z')) ||
  (c.toNat = 0xAA) || (c.toNat = 0xB5) || (c.toNat = 0xBA) ||
  (0xC0 ≤ c.toNat && c.toNat ≤ 0xD6) ||
  (0xD8 ≤ c.toNat && c.toNat ≤ 0xF6) ||
  (0xF8 ≤ c.toNat && c.toNat ≤ 0xFF)

/-- Modelled from Go's unicode.IsNumber, restricted to the Basic Latin and
Latin-1 blocks (digits plus the Latin-1 superscripts and vulgar fractions). -/
def goIsNumber (c : Char) : Bool :=
  (('0' ≤ c) && (c ≤ '9')) ||
  (c.toNat = 0xB2) || (c.toNat = 0xB3) || (c.toNat = 0xB9) ||
  (0xBC ≤ c.toNat && c.toNat ≤ 0xBE)

/-- unicode.IsLetter(r) or unicode.IsNumber(r): the token-constituent test. -/
def goIsAlnum (c : Char) : Bool :=
  goIsLetter c || goIsNumber c

/-- Modelled from Go's strings.ToLower restricted to Basic Latin and
Latin-1: ASCII and Latin-1 uppercase letters map to the lowercase letter
32 code points above; every other character in those blocks is unchanged. -/
def goToLower (c : Char) : Char :=
  if ('A' ≤ c) && (c ≤ 'Z') then Char.ofNat (c.toNat + 32)
  else if (0xC0 ≤ c.toNat) && (c.toNat ≤ 0xDE) && (c.toNat ≠ 0xD7) then Char.ofNat (c.toNat + 32)
  else c

/-- Accumulator-style splitter: collect maximal runs of characters
satisfying goIsAlnum, dropping the delimiters. -/
def tokenizeAux : List Char → List Char → List (List Char)
  | acc, [] => if acc = [] then [] else [acc.reverse]
  | acc, c :: cs =>
    if goIsAlnum c then tokenizeAux (c :: acc) cs
    else if acc = [] then tokenizeAux [] cs
    else acc.reverse :: tokenizeAux [] cs

/-- Modelled from the spec: stage 1 of the analyzer pipeline, the
tokenizer of the repository's tokenizer.go, which the README lists but
which is absent from src/. The spec (section 4.1): split text into maximal
runs of characters, boundary-delimited by non-alphanumeric characters. -/
def tokenize (s : String) : List String :=
  (tokenizeAux [] s.data).map String.mk

/-- lowercaseFilter from src/utils/index_interface.go: every token mapped
through strings.ToLower. -/
def lowercaseFilter (tokens : List String) : List String :=
  tokens.map (fun token => String.mk (token.data.map goToLower))

/-- The anonymous TrimFunc predicate argument in characterFilter:
strip from both ends the runes that are neither letters nor numbers. -/
def trimChars (l : List Char) : List Char :=
  ((l.dropWhile (fun c => !goIsAlnum c)).reverse.dropWhile (fun c => !goIsAlnum c)).reverse

/-- The UTF-8 byte size of one character, as Go's len counts it. -/
def charUtf8Size (c : Char) : ℕ :=
  if c.toNat < 0x80 then 1 else if c.toNat < 0x800 then 2
  else if c.toNat < 0x10000 then 3 else 4

/-- Go's len on a string: the number of UTF-8 bytes. -/
def utf8Len (l : List Char) : ℕ :=
  (l.map charUtf8Size).sum

/-- characterFilter from src/utils/index_interface.go: trim leading and
trailing non-alphanumeric runes, then skip tokens with len(token) < 2.
Go's len counts UTF-8 bytes, hence utf8Len here. -/
def characterFilter (tokens : List String) : List String :=
  tokens.filterMap (fun token =>
    if utf8Len (trimChars token.data) < 2 then none
    else some (String.mk (trimChars token.data)))

/-- The fixed stopword set of stopwordFilter in src/utils/index_interface.go. -/
def stopwords : List String :=
  ["a", "about", "above", "after", "again", "against", "all",
   "am", "an", "and", "any", "are", "aren't", "as", "at",
   "be", "because", "been", "before", "being", "below", "between",
   "both", "but", "by", "can", "can't", "cannot", "could",
   "couldn't", "did", "didn't", "do", "does", "doesn't", "doing",
   "don't", "down", "during", "each", "few", "for", "from",
   "further", "had", "hadn't", "has", "hasn't", "have", "haven't",
   "having", "he", "he'd", "he'll", "he's", "her", "here",
   "here's", "hers", "herself", "him", "himself", "his", "how",
   "how's", "i", "i'd", "i'll", "i'm", "i've", "if", "in",
   "into", "is", "isn't", "it", "it's", "its", "itself",
   "let's", "me", "more", "most", "mustn't", "my", "myself",
   "no", "nor", "not", "of", "off", "on", "once", "only",
   "or", "other", "ought", "our", "ours", "ourselves", "out",
   "over", "own", "same", "shan't", "she", "she'd", "she'll",
   "she's", "should", "shouldn't", "so", "some", "such", "than",
   "that", "that's", "the", "their", "theirs", "them", "themselves",
   "then", "there", "there's", "these", "they", "they'd", "they'll",
   "they're", "they've", "this", "those", "through", "to", "too",
   "under", "until", "up", "very", "was", "wasn't", "we",
   "we'd", "we'll", "we're", "we've", "were", "weren't", "what",
   "what's", "when", "when's", "where", "where's", "which",
   "while", "who", "who's", "whom", "why", "why's", "with",
   "won't", "would", "wouldn't", "you", "you'd", "you'll",
   "you're", "you've", "your", "yours", "yourself", "yourselves"]

/-- stopwordFilter from src/utils/index_interface.go: drop tokens that are
members of the stopword set. -/
def stopwordFilter (tokens : List String) : List String :=
  tokens.filter (fun token => !stopwords.contains token)

/-- Modelled from the spec: the external snowball English stemmer
(github.com/kljensen/snowball/english, called by stemmerFilter with
stemStopWords = false). The spec (section 4.1) requires a deterministic
suffix-stripping reduction collapsing inflections, e.g. "donuts" and
"donut" to one term. We model the regular-plural rule, which agrees with
the snowball stemmer on every token this development evaluates it on:
strip one trailing "s" unless the token ends in "ss". -/
def stem (t : String) : String :=
  match t.data.reverse with
  | 's' :: 's' :: _ => t
  | 's' :: rest => String.mk rest.reverse
  | _ => t

/-- stemmerFilter from src/utils/index_interface.go: every token mapped
through the stemmer. -/
def stemmerFilter (tokens : List String) : List String :=
  tokens.map stem

/-- Modelled from the spec: the analyze function of the repository's
tokenizer.go (absent from src/; both index files call it). The spec
(section 4.1) fixes the stage order: tokenize, lowercase, character trim,
stopword removal, stemming. -/
def analyze (text : String) : List String :=
  stemmerFilter (stopwordFilter (characterFilter (lowercaseFilter (tokenize text))))

/-- Document from src/utils (document.go section): the index reads only
the Text and ID fields. -/
structure Document where
  title : String
  url : String
  text : String
  id : Int
deriving Repr, DecidableEq

/-- IndexEntry (sequential engine) and ConcurrentIndexEntry
(src/utils/concurrent_types.go) both hold the positionally paired
sequences DocIDs and Freqs; the weights are reals abstracting the Go
floats. -/
structure IndexEntry where
  docIDs : List Int
  freqs : List ℝ

/-- Index (and the observable state of ConcurrentIndex, with its sync.Map
linearized): a mapping from token to entry, modelled as an association
list, plus docCount. -/
structure Index where
  entries : List (String × IndexEntry)
  docCount : ℕ

/-- NewIndex / NewConcurrentIndex: empty mapping, zero docCount. -/
def Index.empty : Index := ⟨[], 0⟩

/-- Clear in both engines: mapping emptied, docCount reset to zero. -/
def Index.clear (_idx : Index) : Index := ⟨[], 0⟩

/-- IndexStats as populated by Stats() in both engines: the Go struct has
four further fields (AvgDocLength, MaxScore, MinScore, IndexSizeKB) that
neither engine ever sets, so they stay zero and are omitted. -/
structure IndexStats where
  documentCount : ℕ
  termCount : ℕ
deriving Repr, DecidableEq

/-- Stats in both engines: the docCount scalar and the number of keys of
the mapping. -/
def Index.stats (idx : Index) : IndexStats :=
  ⟨idx.docCount, idx.entries.length⟩

/-- The body of the per-token mutation in Add (both engines): create the
entry on first occurrence of the token, then append the (docID, tf) pair
to its two sequences (in the concurrent engine this is the section guarded
by the per-entry lock, with LoadOrStore supplying fetch-or-create). -/
def addPosting : List (String × IndexEntry) → String → Int → ℝ → List (String × IndexEntry)
  | [], t, id, tf => [(t, ⟨[id], [tf]⟩)]
  | (k, e) :: rest, t, id, tf =>
    if k = t then (k, ⟨e.docIDs ++ [id], e.freqs ++ [tf]⟩) :: rest
    else (k, e) :: addPosting rest t id tf

/-- The per-document body of Add's loop (identical in both engines):
analyze the text, skip the document if it yields zero tokens, otherwise
append (docID, count/totalTokens) for each distinct token. Go iterates
the tokenFreq map in unspecified order; distinct tokens touch distinct
keys, so any order yields the same mapping — we use List.dedup. -/
noncomputable def processDoc (m : List (String × IndexEntry)) (doc : Document) :
    List (String × IndexEntry) :=
  let tokens := analyze doc.text
  if tokens = [] then m
  else tokens.dedup.foldl
    (fun acc t => addPosting acc t doc.id ((tokens.count t : ℝ) / (tokens.length : ℝ))) m

/-- The IDF weight: log(N/(df + 1)) + 1, as in calculateIDF (sequential
engine) and in the lazy Search of the concurrent engine. -/
noncomputable def idfVal (n df : ℕ) : ℝ :=
  Real.log ((n : ℝ) / ((df : ℝ) + 1)) + 1

/-- calculateIDF of the sequential engine: for every entry of the mapping,
multiply each stored weight by idf computed from the current docCount and
that entry's len(DocIDs). -/
noncomputable def calculateIDF (idx : Index) : Index :=
  { entries := idx.entries.map (fun p =>
      (p.1, ⟨p.2.docIDs, p.2.freqs.map (fun w => w * idfVal idx.docCount p.2.docIDs.length)⟩)),
    docCount := idx.docCount }

/-- The shared batch loop of Add: docCount += len(docs), then the
per-document loop. The concurrent engine distributes the documents over a
worker pool; each (document, token) pair performs exactly one locked
append, so the final mapping is the linearization modelled here up to the
(unobservable) order within each entry's paired sequences. -/
noncomputable def rawAdd (idx : Index) (docs : List Document) : Index :=
  { entries := docs.foldl processDoc idx.entries,
    docCount := idx.docCount + docs.length }

/-- Add of the sequential engine (src/unnamed/part_001): early return on an
empty batch, the batch loop, then calculateIDF over the whole index. -/
noncomputable def Index.add (idx : Index) (docs : List Document) : Index :=
  if docs = [] then idx else calculateIDF (rawAdd idx docs)

/-- Add of the concurrent engine (src/utils/index_concurrent.go, the lazy
revision): early return on an empty batch, then the batch loop; TF is
stored directly and IDF is deferred to Search. -/
noncomputable def ConcurrentIndex.add (idx : Index) (docs : List Document) : Index :=
  if docs = [] then idx else rawAdd idx docs

/-- One `scores[docID] += w` step: Go map upsert, modelled on an
association list keyed by docID. -/
noncomputable def addScore : List (Int × ℝ) → Int → ℝ → List (Int × ℝ)
  | [], d, w => [(d, w)]
  | (k, v) :: rest, d, w =>
    if k = d then (k, v + w) :: rest
    else (k, v) :: addScore rest d w

/-- The score accumulation loop of the sequential Search: for each query
token with an entry, add the stored weight Freqs[i] to scores[DocIDs[i]]. -/
noncomputable def Index.searchScores (idx : Index) (tokens : List String) : List (Int × ℝ) :=
  tokens.foldl (fun acc t =>
    match List.lookup t idx.entries with
    | none => acc
    | some e => (e.docIDs.zip e.freqs).foldl (fun a p => addScore a p.1 p.2) acc) []

/-- The score accumulation loop of the concurrent Search (lazy revision):
for each query token with an entry, compute idf from the live docCount and
len(DocIDs), then add Freqs[i] * idf to scores[DocIDs[i]]. -/
noncomputable def ConcurrentIndex.searchScores (idx : Index) (tokens : List String) :
    List (Int × ℝ) :=
  tokens.foldl (fun acc t =>
    match List.lookup t idx.entries with
    | none => acc
    | some e => (e.docIDs.zip e.freqs).foldl
        (fun a p => addScore a p.1 (p.2 * idfVal idx.docCount e.docIDs.length)) acc) []

/-- SearchResult: docID plus accumulated score. -/
structure SearchResult where
  docID : Int
  score : ℝ

/-- The comparator handed to sort.Slice in every Search method:
less(i, j) = results[i].Score > results[j].Score. A list is fully sorted
for it when no later element scores strictly more than an earlier one. -/
def ScoreSorted (res : List SearchResult) : Prop :=
  res.Pairwise (fun a b => ¬ (b.score > a.score))

/-- The set of result lists the sequential Search may return for a query
(src/unnamed/part_001): nil on an empty token sequence or an empty scores
map; otherwise the results slice is filled by map iteration in unspecified
order and sorted by sort.Slice, so the possible outputs are exactly
modelled as the score-sorted permutations of the scores entries. -/
noncomputable def Index.SearchMayReturn (idx : Index) (text : String)
    (res : List SearchResult) : Prop :=
  if analyze text = [] then res = []
  else if idx.searchScores (analyze text) = [] then res = []
  else res.Perm ((idx.searchScores (analyze text)).map (fun p => ⟨p.1, p.2⟩)) ∧ ScoreSorted res

/-- The set of result lists the concurrent Search (lazy revision) may
return; identical shape, with the lazy score accumulation. -/
noncomputable def ConcurrentIndex.SearchMayReturn (idx : Index) (text : String)
    (res : List SearchResult) : Prop :=
  if analyze text = [] then res = []
  else if ConcurrentIndex.searchScores idx (analyze text) = [] then res = []
  else res.Perm ((ConcurrentIndex.searchScores idx (analyze text)).map (fun p => ⟨p.1, p.2⟩)) ∧
    ScoreSorted res

/-- Search in either engine as a state transformer: the method body writes
only method-local state (tokens, scores, results), never the receiver's
entries or docCount, so the index component of the step is the input
index. -/
noncomputable def Index.searchStep (idx : Index) (text : String) :
    Index × List (Int × ℝ) :=
  (idx, idx.searchScores (analyze text))

/-- The concurrent Search as a state transformer; it takes only read locks
and writes only method-local state. -/
noncomputable def ConcurrentIndex.searchStep (idx : Index) (text : String) :
    Index × List (Int × ℝ) :=
  (idx, ConcurrentIndex.searchScores idx (analyze text))

/-! ### Characterizing the mapping built by Add -/

/-- The effect on one entry of a single append for token t: create the
entry or extend both sequences. -/
def combineOne (o : Option IndexEntry) (id : Int) (tf : ℝ) : IndexEntry :=
  match o with
  | none => ⟨[id], [tf]⟩
  | some e => ⟨e.docIDs ++ [id], e.freqs ++ [tf]⟩

/-- The effect on one entry of a list of appends. -/
def combine (o : Option IndexEntry) (ps : List (Int × ℝ)) : Option IndexEntry :=
  match o, ps with
  | none, [] => none
  | none, ps => some ⟨ps.map Prod.fst, ps.map Prod.snd⟩
  | some e, ps => some ⟨e.docIDs ++ ps.map Prod.fst, e.freqs ++ ps.map Prod.snd⟩

theorem combine_nil (o : Option IndexEntry) : combine o [] = o := by
  cases o with
  | none => rfl
  | some e => simp [combine]

theorem combine_cons (o : Option IndexEntry) (id : Int) (tf : ℝ) (ps : List (Int × ℝ)) :
    combine o ((id, tf) :: ps) = combine (some (combineOne o id tf)) ps := by
  cases o with
  | none => cases ps <;> simp [combine, combineOne]
  | some e => cases ps <;> simp [combine, combineOne]

theorem lookup_cons' (k t : String) (e : IndexEntry) (rest : List (String × IndexEntry)) :
    List.lookup t ((k, e) :: rest) = if k = t then some e else List.lookup t rest := by
  by_cases h : k = t
  · subst h; simp [List.lookup]
  · have hb : (t == k) = false := beq_eq_false_iff_ne.mpr (fun hc => h hc.symm)
    simp [List.lookup, hb, h]

theorem lookup_addPosting (m : List (String × IndexEntry)) (t' t : String) (id : Int) (tf : ℝ) :
    List.lookup t (addPosting m t' id tf) =
      if t' = t then some (combineOne (List.lookup t m) id tf) else List.lookup t m := by
  induction m with
  | nil =>
    by_cases ht : t' = t <;>
      simp [addPosting, lookup_cons', List.lookup_nil, ht, combineOne]
  | cons p rest ih =>
    obtain ⟨k, e⟩ := p
    by_cases hk : k = t' <;> by_cases ht : t' = t
    · have hkt : k = t := hk.trans ht
      simp [addPosting, hk, ht, lookup_cons', hkt, combineOne]
    · have hkt : ¬ k = t := fun h => ht (hk ▸ h)
      simp [addPosting, hk, ht, lookup_cons', hkt]
    · have hkt : ¬ k = t := fun h => hk (h.trans ht.symm)
      subst ht
      simp [addPosting, hk, lookup_cons', hkt, ih]
    · simp [addPosting, hk, ht, lookup_cons', ih]

theorem lookup_foldl_addPosting (t : String) (id : Int) (tfo : String → ℝ) :
    ∀ (L : List String), L.Nodup → ∀ (m : List (String × IndexEntry)),
      List.lookup t (L.foldl (fun acc u => addPosting acc u id (tfo u)) m) =
        if t ∈ L then some (combineOne (List.lookup t m) id (tfo t)) else List.lookup t m := by
  intro L
  induction L with
  | nil => intro _ m; simp
  | cons u L' ih =>
    intro hnd m
    have hnd' : L'.Nodup := hnd.of_cons
    have hu : u ∉ L' := (List.nodup_cons.mp hnd).1
    simp only [List.foldl_cons]
    rw [ih hnd']
    by_cases hmem : t ∈ L'
    · have htu : ¬ u = t := fun h => hu (h ▸ hmem)
      rw [lookup_addPosting, if_neg htu]
      simp [hmem, List.mem_cons]
    · rw [lookup_addPosting]
      by_cases htu : u = t
      · subst htu
        simp [hmem]
      · have htu' : ¬ t = u := fun h => htu h.symm
        simp [hmem, htu, htu', List.mem_cons]

theorem lookup_processDoc (m : List (String × IndexEntry)) (d : Document) (t : String) :
    List.lookup t (processDoc m d) =
      if t ∈ analyze d.text then
        some (combineOne (List.lookup t m) d.id
          (((analyze d.text).count t : ℝ) / ((analyze d.text).length : ℝ)))
      else List.lookup t m := by
  unfold processDoc
  by_cases h0 : analyze d.text = []
  · simp [h0]
  · rw [if_neg h0,
      lookup_foldl_addPosting t d.id
        (fun u => (((analyze d.text).count u : ℝ) / ((analyze d.text).length : ℝ)))
        (analyze d.text).dedup (analyze d.text).nodup_dedup m]
    simp [List.mem_dedup]

/-- The postings the spec assigns a term after one batch from an empty
index: for each document of the batch whose analyzed text contains the
term (in order), the pair (docID, count/totalTokens). -/
noncomputable def postingsFor (docs : List Document) (t : String) : List (Int × ℝ) :=
  docs.filterMap (fun d =>
    let ts := analyze d.text
    if t ∈ ts then some (d.id, (ts.count t : ℝ) / (ts.length : ℝ)) else none)

theorem lookup_foldl_processDoc (t : String) :
    ∀ (docs : List Document) (m : List (String × IndexEntry)),
      List.lookup t (docs.foldl processDoc m) =
        combine (List.lookup t m) (postingsFor docs t) := by
  intro docs
  induction docs with
  | nil => intro m; simp [postingsFor, combine_nil]
  | cons d rest ih =>
    intro m
    simp only [List.foldl_cons]
    rw [ih, lookup_processDoc]
    by_cases h : t ∈ analyze d.text
    · have hps : postingsFor (d :: rest) t =
          (d.id, ((analyze d.text).count t : ℝ) / ((analyze d.text).length : ℝ)) ::
            postingsFor rest t := by
        simp [postingsFor, List.filterMap_cons, h]
      rw [hps, if_pos h, combine_cons]
    · have hps : postingsFor (d :: rest) t = postingsFor rest t := by
        simp [postingsFor, List.filterMap_cons, h]
      rw [hps, if_neg h]

theorem lookup_calculateIDF (idx : Index) (t : String) :
    List.lookup t (calculateIDF idx).entries =
      (List.lookup t idx.entries).map (fun e =>
        ⟨e.docIDs, e.freqs.map (fun w => w * idfVal idx.docCount e.docIDs.length)⟩) := by
  show List.lookup t (idx.entries.map _) = _
  induction idx.entries with
  | nil => simp
  | cons p rest ih =>
    obtain ⟨k, e⟩ := p
    by_cases h : k = t
    · subst h
      simp [lookup_cons']
    · simp [lookup_cons', h, ih]

theorem combine_none_eq (ps : List (Int × ℝ)) :
    combine none ps = if ps = [] then none else some ⟨ps.map Prod.fst, ps.map Prod.snd⟩ := by
  cases ps <;> simp [combine]

/-- One Add on a fresh sequential index: the entry of a term t holds
exactly the batch's (docID, TF) pairs with TF scaled once by idf from the
final docCount and posting count. -/
theorem lookup_add_empty (docs : List Document) (t : String) :
    List.lookup t ((Index.empty.add docs).entries) =
      if postingsFor docs t = [] then none
      else some ⟨(postingsFor docs t).map Prod.fst,
        (postingsFor docs t).map
          (fun p => p.2 * idfVal docs.length (postingsFor docs t).length)⟩ := by
  by_cases hd : docs = []
  · subst hd
    simp [Index.add, Index.empty, postingsFor]
  · rw [Index.add, if_neg hd, lookup_calculateIDF]
    have hbase : List.lookup t (rawAdd Index.empty docs).entries =
        combine none (postingsFor docs t) := by
      show List.lookup t (docs.foldl processDoc Index.empty.entries) = _
      rw [lookup_foldl_processDoc]
      rfl
    have hN : (rawAdd Index.empty docs).docCount = docs.length := by
      simp [rawAdd, Index.empty]
    rw [hbase, combine_none_eq]
    by_cases hps : postingsFor docs t = []
    · simp [hps]
    · rw [if_neg hps, if_neg hps]
      simp [hN, List.map_map, Function.comp]

/-! ### The equal-lengths invariant of postings entries -/

/-- The PostingsEntry invariant: DocIDs and Freqs have equal length. -/
def EntryWF (e : IndexEntry) : Prop :=
  e.docIDs.length = e.freqs.length

/-- Every entry of a mapping satisfies the invariant. -/
def EntriesWF (m : List (String × IndexEntry)) : Prop :=
  ∀ p ∈ m, EntryWF p.2

/-- Every entry of an index satisfies the invariant. -/
def IndexWF (idx : Index) : Prop :=
  EntriesWF idx.entries

theorem entriesWF_addPosting (m : List (String × IndexEntry)) (t : String) (id : Int) (tf : ℝ)
    (h : EntriesWF m) : EntriesWF (addPosting m t id tf) := by
  induction m with
  | nil =>
    intro p hp
    simp only [addPosting, List.mem_singleton] at hp
    subst hp
    simp [EntryWF]
  | cons q rest ih =>
    obtain ⟨k, e⟩ := q
    have he : EntryWF e := h (k, e) (List.mem_cons_self _ _)
    have hrest : EntriesWF rest := fun p hp => h p (List.mem_cons_of_mem _ hp)
    by_cases hk : k = t
    · simp only [addPosting, if_pos hk]
      intro p hp
      rcases List.mem_cons.mp hp with h1 | h2
      · subst h1
        simpa [EntryWF] using he
      · exact hrest p h2
    · simp only [addPosting, if_neg hk]
      intro p hp
      rcases List.mem_cons.mp hp with h1 | h2
      · subst h1; exact he
      · exact ih hrest p h2

theorem entriesWF_processDoc (m : List (String × IndexEntry)) (d : Document)
    (h : EntriesWF m) : EntriesWF (processDoc m d) := by
  unfold processDoc
  by_cases h0 : analyze d.text = []
  · simpa [h0]
  · rw [if_neg h0]
    generalize (analyze d.text).dedup = L
    induction L generalizing m with
    | nil => simpa
    | cons u L' ih =>
      simp only [List.foldl_cons]
      exact ih _ (entriesWF_addPosting _ _ _ _ h)

theorem entriesWF_foldl_processDoc (docs : List Document) (m : List (String × IndexEntry))
    (h : EntriesWF m) : EntriesWF (docs.foldl processDoc m) := by
  induction docs generalizing m with
  | nil => simpa
  | cons d rest ih => exact ih _ (entriesWF_processDoc _ _ h)

theorem indexWF_calculateIDF (idx : Index) (h : IndexWF idx) : IndexWF (calculateIDF idx) := by
  intro p hp
  simp only [calculateIDF, List.mem_map] at hp
  obtain ⟨q, hq, rfl⟩ := hp
  have := h q hq
  simpa [EntryWF] using this

theorem indexWF_add (idx : Index) (docs : List Document) (h : IndexWF idx) :
    IndexWF (idx.add docs) := by
  unfold Index.add
  by_cases hd : docs = []
  · simpa [hd]
  · rw [if_neg hd]
    exact indexWF_calculateIDF _ (entriesWF_foldl_processDoc docs _ h)

theorem indexWF_conAdd (idx : Index) (docs : List Document) (h : IndexWF idx) :
    IndexWF (ConcurrentIndex.add idx docs) := by
  unfold ConcurrentIndex.add
  by_cases hd : docs = []
  · simpa [hd]
  · rw [if_neg hd]
    exact entriesWF_foldl_processDoc docs _ h

/-! ### Score accumulation lemmas -/

theorem search_step_eq (idx : Index) (acc : List (Int × ℝ)) (t : String) :
    (match List.lookup t (calculateIDF idx).entries with
     | none => acc
     | some e => (e.docIDs.zip e.freqs).foldl (fun (a : List (Int × ℝ)) (p : Int × ℝ) => addScore a p.1 p.2) acc) =
    (match List.lookup t idx.entries with
     | none => acc
     | some e => (e.docIDs.zip e.freqs).foldl
         (fun (a : List (Int × ℝ)) (p : Int × ℝ) => addScore a p.1 (p.2 * idfVal idx.docCount e.docIDs.length)) acc) := by
  rw [lookup_calculateIDF]
  cases h : List.lookup t idx.entries with
  | none => rfl
  | some e =>
    simp only [Option.map_some']
    rw [List.zip_map_right, List.foldl_map]
    simp only [Prod.map_fst, Prod.map_snd, id_eq]

theorem foldl_search_step_eq (idx : Index) :
    ∀ (ts : List String) (acc : List (Int × ℝ)),
      List.foldl (fun acc t =>
        match List.lookup t (calculateIDF idx).entries with
        | none => acc
        | some e => (e.docIDs.zip e.freqs).foldl (fun (a : List (Int × ℝ)) (p : Int × ℝ) => addScore a p.1 p.2) acc) acc ts =
      List.foldl (fun acc t =>
        match List.lookup t idx.entries with
        | none => acc
        | some e => (e.docIDs.zip e.freqs).foldl
            (fun (a : List (Int × ℝ)) (p : Int × ℝ) => addScore a p.1 (p.2 * idfVal idx.docCount e.docIDs.length)) acc) acc ts := by
  intro ts
  induction ts with
  | nil => intro acc; rfl
  | cons t ts ih =>
    intro acc
    simp only [List.foldl_cons]
    rw [search_step_eq]
    exact ih _

/-- The scores the eagerly-scaled sequential index accumulates coincide
with the scores the lazily-scaled index accumulates: the per-entry posting
count and the docCount feeding idf are identical, and multiplication is
folded in per position either way. -/
theorem searchScores_calculateIDF (idx : Index) (ts : List String) :
    Index.searchScores (calculateIDF idx) ts = ConcurrentIndex.searchScores idx ts := by
  unfold Index.searchScores ConcurrentIndex.searchScores
  exact foldl_search_step_eq idx ts []

theorem foldl_search_none {idx : Index} :
    ∀ {ts : List String}, (∀ t ∈ ts, List.lookup t idx.entries = none) →
      ∀ acc, List.foldl (fun acc t =>
        match List.lookup t idx.entries with
        | none => acc
        | some e => (e.docIDs.zip e.freqs).foldl (fun (a : List (Int × ℝ)) (p : Int × ℝ) => addScore a p.1 p.2) acc) acc ts = acc := by
  intro ts
  induction ts with
  | nil => intro _ acc; rfl
  | cons t ts ih =>
    intro h acc
    simp only [List.foldl_cons]
    rw [h t (List.mem_cons_self _ _)]
    exact ih (fun u hu => h u (List.mem_cons_of_mem _ hu)) acc

theorem searchScores_none (idx : Index) (ts : List String)
    (h : ∀ t ∈ ts, List.lookup t idx.entries = none) :
    Index.searchScores idx ts = [] := by
  unfold Index.searchScores
  exact foldl_search_none h []

theorem foldl_searchCon_none {idx : Index} :
    ∀ {ts : List String}, (∀ t ∈ ts, List.lookup t idx.entries = none) →
      ∀ acc, List.foldl (fun acc t =>
        match List.lookup t idx.entries with
        | none => acc
        | some e => (e.docIDs.zip e.freqs).foldl
            (fun (a : List (Int × ℝ)) (p : Int × ℝ) => addScore a p.1 (p.2 * idfVal idx.docCount e.docIDs.length)) acc) acc ts = acc := by
  intro ts
  induction ts with
  | nil => intro _ acc; rfl
  | cons t ts ih =>
    intro h acc
    simp only [List.foldl_cons]
    rw [h t (List.mem_cons_self _ _)]
    exact ih (fun u hu => h u (List.mem_cons_of_mem _ hu)) acc

theorem conSearchScores_none (idx : Index) (ts : List String)
    (h : ∀ t ∈ ts, List.lookup t idx.entries = none) :
    ConcurrentIndex.searchScores idx ts = [] := by
  unfold ConcurrentIndex.searchScores
  exact foldl_searchCon_none h []

/-! ### Properties of the Search outcome sets -/

theorem sSearch_scoreSorted {idx : Index} {text : String} {res : List SearchResult}
    (h : Index.SearchMayReturn idx text res) : ScoreSorted res := by
  by_cases h0 : analyze text = []
  · rw [Index.SearchMayReturn, if_pos h0] at h
    subst h
    exact List.Pairwise.nil
  · rw [Index.SearchMayReturn, if_neg h0] at h
    by_cases h1 : idx.searchScores (analyze text) = []
    · rw [if_pos h1] at h
      subst h
      exact List.Pairwise.nil
    · rw [if_neg h1] at h
      exact h.2

theorem pSearch_scoreSorted {idx : Index} {text : String} {res : List SearchResult}
    (h : ConcurrentIndex.SearchMayReturn idx text res) : ScoreSorted res := by
  by_cases h0 : analyze text = []
  · rw [ConcurrentIndex.SearchMayReturn, if_pos h0] at h
    subst h
    exact List.Pairwise.nil
  · rw [ConcurrentIndex.SearchMayReturn, if_neg h0] at h
    by_cases h1 : ConcurrentIndex.searchScores idx (analyze text) = []
    · rw [if_pos h1] at h
      subst h
      exact List.Pairwise.nil
    · rw [if_neg h1] at h
      exact h.2

theorem sSearch_perm {idx : Index} {text : String} {res1 res2 : List SearchResult}
    (h1 : Index.SearchMayReturn idx text res1) (h2 : Index.SearchMayReturn idx text res2) :
    res1.Perm res2 := by
  by_cases h0 : analyze text = []
  · rw [Index.SearchMayReturn, if_pos h0] at h1 h2
    rw [h1, h2]
  · rw [Index.SearchMayReturn, if_neg h0] at h1 h2
    by_cases hs : idx.searchScores (analyze text) = []
    · rw [if_pos hs] at h1 h2
      rw [h1, h2]
    · rw [if_neg hs] at h1 h2
      exact h1.1.trans h2.1.symm

theorem pSearch_perm {idx : Index} {text : String} {res1 res2 : List SearchResult}
    (h1 : ConcurrentIndex.SearchMayReturn idx text res1)
    (h2 : ConcurrentIndex.SearchMayReturn idx text res2) :
    res1.Perm res2 := by
  by_cases h0 : analyze text = []
  · rw [ConcurrentIndex.SearchMayReturn, if_pos h0] at h1 h2
    rw [h1, h2]
  · rw [ConcurrentIndex.SearchMayReturn, if_neg h0] at h1 h2
    by_cases hs : ConcurrentIndex.searchScores idx (analyze text) = []
    · rw [if_pos hs] at h1 h2
      rw [h1, h2]
    · rw [if_neg hs] at h1 h2
      exact h1.1.trans h2.1.symm

/-- C1 (amended): for every index state (sequential or parallel engine)
and every query, every result list Search may return is sorted by score
descending (no later result scores strictly more than an earlier one).
The tie-break half of the original claim is false: the sort.Slice
comparator reads only the scores, so equal-score results may appear in
any order (see the counterexample). -/
theorem c1_search_sorted (idx : Index) (text : String) (res : List SearchResult) :
    (Index.SearchMayReturn idx text res → res.Pairwise (fun a b => b.score ≤ a.score)) ∧
    (ConcurrentIndex.SearchMayReturn idx text res → res.Pairwise (fun a b => b.score ≤ a.score)) := by
  constructor
  · intro h
    exact (sSearch_scoreSorted h).imp (fun hab => not_lt.mp hab)
  · intro h
    exact (pSearch_scoreSorted h).imp (fun hab => not_lt.mp hab)

/-- C3 (amended): one Add of the identical corpus into a fresh sequential
index and a fresh parallel index yields identical per-document scores, so
the two engines admit exactly the same set of ranked result lists; every
pair of documents with distinct scores is therefore ordered identically by
both engines, but a particular pair of runs may order equal-score
documents differently (see the counterexample). -/
theorem c3_engines_same_outcomes (docs : List Document) (text : String)
    (res : List SearchResult) :
    Index.SearchMayReturn (Index.empty.add docs) text res ↔
      ConcurrentIndex.SearchMayReturn (ConcurrentIndex.add Index.empty docs) text res := by
  by_cases hd : docs = []
  · subst hd
    rw [Index.add, ConcurrentIndex.add, if_pos rfl, if_pos rfl,
      Index.SearchMayReturn, ConcurrentIndex.SearchMayReturn,
      searchScores_none Index.empty (analyze text) (fun t _ => rfl),
      conSearchScores_none Index.empty (analyze text) (fun t _ => rfl)]
  · rw [Index.add, ConcurrentIndex.add, if_neg hd, if_neg hd,
      Index.SearchMayReturn, ConcurrentIndex.SearchMayReturn,
      searchScores_calculateIDF]

/-- C5 (amended): a rebuilt index is deterministic, and Search always
returns the same multiset of (docID, score) results for the same corpus
and query — but not always the same ordered list: equal-score results can
come back in either order across runs because the randomized Go map
iteration feeds a comparator that only inspects scores (see the
counterexample). Any two possible outputs of Search on the same engine
state and query are permutations of each other. -/
theorem c5_runs_perm (idx : Index) (text : String) (res1 res2 : List SearchResult) :
    (Index.SearchMayReturn idx text res1 → Index.SearchMayReturn idx text res2 →
      res1.Perm res2) ∧
    (ConcurrentIndex.SearchMayReturn idx text res1 →
      ConcurrentIndex.SearchMayReturn idx text res2 → res1.Perm res2) := by
  exact ⟨fun h1 h2 => sSearch_perm h1 h2, fun h1 h2 => pSearch_perm h1 h2⟩

/-- C4: every postings entry keeps len(DocIDs) = len(Freqs): the invariant
holds for the empty index, is preserved by each single locked append (the
granularity at which the concurrent engine mutates an entry, covering
every worker interleaving), by Add of either engine, and by Clear; Search
and Stats leave the index state untouched. -/
theorem c4_entry_lengths (idx : Index) (docs : List Document)
    (m : List (String × IndexEntry)) (t : String) (id : Int) (tf : ℝ) (text : String)
    (h : IndexWF idx) (hm : EntriesWF m) :
    IndexWF (idx.add docs) ∧ IndexWF (ConcurrentIndex.add idx docs) ∧
    IndexWF idx.clear ∧ EntriesWF (addPosting m t id tf) ∧
    IndexWF (idx.searchStep text).1 ∧ IndexWF (ConcurrentIndex.searchStep idx text).1 ∧
    (idx.searchStep text).1.stats = idx.stats := by
  refine ⟨indexWF_add idx docs h, indexWF_conAdd idx docs h, ?_,
    entriesWF_addPosting m t id tf hm, h, h, rfl⟩
  intro p hp
  simp [Index.clear] at hp

/-- C6: Add on the empty batch returns the index unchanged in both
engines; Add of any batch increments docCount by exactly the batch size
in both engines; and a document whose analyzed text yields zero tokens is
skipped by the per-document loop, contributing nothing to the mapping,
while still having been counted in the docCount increment. -/
theorem c6_add_batch (idx : Index) (docs : List Document) (d : Document)
    (m : List (String × IndexEntry)) :
    Index.add idx [] = idx ∧ ConcurrentIndex.add idx [] = idx ∧
    (idx.add docs).docCount = idx.docCount + docs.length ∧
    (ConcurrentIndex.add idx docs).docCount = idx.docCount + docs.length ∧
    (analyze d.text = [] → processDoc m d = m) := by
  refine ⟨rfl, rfl, ?_, ?_, ?_⟩
  · rw [Index.add]
    by_cases hd : docs = []
    · simp [hd]
    · rw [if_neg hd]
      simp [calculateIDF, rawAdd]
  · rw [ConcurrentIndex.add]
    by_cases hd : docs = []
    · simp [hd]
    · rw [if_neg hd]
      simp [rawAdd]
  · intro h0
    simp [processDoc, h0]

/-- C7: Search never reports an error; it returns the empty result exactly
when the query analyzes to zero tokens or no query token has an entry in
the mapping, for both engines; and a query token absent from the mapping
contributes nothing to the accumulated scores. -/
theorem c7_empty_results (idx : Index) (text : String) (res : List SearchResult)
    (t : String) (ts1 ts2 : List String) :
    (analyze text = [] →
      ((Index.SearchMayReturn idx text res ↔ res = []) ∧
       (ConcurrentIndex.SearchMayReturn idx text res ↔ res = []))) ∧
    ((∀ u ∈ analyze text, List.lookup u idx.entries = none) →
      ((Index.SearchMayReturn idx text res ↔ res = []) ∧
       (ConcurrentIndex.SearchMayReturn idx text res ↔ res = []))) ∧
    (List.lookup t idx.entries = none →
      (Index.searchScores idx (ts1 ++ t :: ts2) = Index.searchScores idx (ts1 ++ ts2) ∧
       ConcurrentIndex.searchScores idx (ts1 ++ t :: ts2) =
         ConcurrentIndex.searchScores idx (ts1 ++ ts2))) := by
  refine ⟨?_, ?_, ?_⟩
  · intro h0
    rw [Index.SearchMayReturn, ConcurrentIndex.SearchMayReturn, if_pos h0, if_pos h0]
    exact ⟨Iff.rfl, Iff.rfl⟩
  · intro hnone
    by_cases h0 : analyze text = []
    · rw [Index.SearchMayReturn, ConcurrentIndex.SearchMayReturn, if_pos h0, if_pos h0]
      exact ⟨Iff.rfl, Iff.rfl⟩
    · rw [Index.SearchMayReturn, ConcurrentIndex.SearchMayReturn, if_neg h0, if_neg h0,
        searchScores_none idx _ hnone, conSearchScores_none idx _ hnone]
      simp
  · intro hnone
    constructor
    · unfold Index.searchScores
      rw [List.foldl_append, List.foldl_append, List.foldl_cons, hnone]
    · unfold ConcurrentIndex.searchScores
      rw [List.foldl_append, List.foldl_append, List.foldl_cons, hnone]

/-- C9: holding TF fixed (and nonnegative, as every TF is), the score
contribution TF times idf under the formula log(docCount/(df + 1)) + 1 is
monotonically non-increasing in the posting count df: a term listed in
fewer documents contributes at least as much as one listed in more, for
the same docCount. -/
theorem c9_idf_monotone (tf : ℝ) (n df1 df2 : ℕ) (htf : 0 ≤ tf) (hdf : df1 ≤ df2) :
    tf * idfVal n df2 ≤ tf * idfVal n df1 := by
  apply mul_le_mul_of_nonneg_left _ htf
  unfold idfVal
  apply add_le_add_right
  rcases Nat.eq_zero_or_pos n with h0 | hpos
  · subst h0
    simp
  · have hn : (0:ℝ) < (n:ℝ) := by exact_mod_cast hpos
    have hx : (0:ℝ) < (n:ℝ) / ((df2:ℝ) + 1) := by positivity
    have harg : (n:ℝ) / ((df2:ℝ) + 1) ≤ (n:ℝ) / ((df1:ℝ) + 1) := by
      gcongr
    exact Real.log_le_log hx harg

/-- C10: Search is a pure read in both engines: the state component of the
search step is the input index, so docCount, the term mapping, every
entry, and the reported Stats are unchanged by a Search call. -/
theorem c10_search_frame (idx : Index) (text : String) :
    (idx.searchStep text).1 = idx ∧ (ConcurrentIndex.searchStep idx text).1 = idx ∧
    (idx.searchStep text).1.stats = idx.stats ∧
    (idx.searchStep text).1.entries = idx.entries ∧
    (idx.searchStep text).1.docCount = idx.docCount ∧
    (ConcurrentIndex.searchStep idx text).1.stats = idx.stats :=
  ⟨rfl, rfl, rfl, rfl, rfl, rfl⟩

/-- C2 (amended): for the first Add call on a fresh sequential index, after
Add returns every stored weight is TF times IDF: the entry of a term t is
exactly the per-document pairs (docID, count/totalTokens) of the batch,
with each TF multiplied by idf computed from the docCount at the end of
the call (the batch size) and the entry's final posting count. For later
Add calls this fails: calculateIDF rescales the already-scaled weights of
the whole index again (see the counterexample). -/
theorem c2_first_add_weights (docs : List Document) (t : String) :
    List.lookup t ((Index.empty.add docs).entries) =
      if postingsFor docs t = [] then none
      else some ⟨(postingsFor docs t).map Prod.fst,
        (postingsFor docs t).map
          (fun p => p.2 * idfVal docs.length (postingsFor docs t).length)⟩ :=
  lookup_add_empty docs t

/-! ### Concrete runs -/

theorem analyze_glass : analyze "glass" = ["glass"] := by decide

theorem analyze_blank : analyze "" = [] := by decide

/-- Two distinct documents with the same one-token text: indexed together
they end with identical scores. -/
def twinDocs : List Document :=
  [⟨"", "", "glass", 1⟩, ⟨"", "", "glass", 2⟩]

noncomputable def twinSeq : Index := Index.empty.add twinDocs

noncomputable def twinPar : Index := ConcurrentIndex.add Index.empty twinDocs

/-- The common score of the twin documents. -/
noncomputable def twinScore : ℝ := idfVal 2 2

theorem postingsFor_twin : postingsFor twinDocs "glass" = [(1, (1:ℝ)), (2, (1:ℝ))] := by
  simp [postingsFor, twinDocs, analyze_glass]

theorem twinSeq_lookup :
    List.lookup "glass" twinSeq.entries = some ⟨[1, 2], [twinScore, twinScore]⟩ := by
  show List.lookup "glass" (Index.empty.add twinDocs).entries = _
  rw [lookup_add_empty, postingsFor_twin]
  simp [twinDocs, twinScore]

theorem twinSeq_scores :
    Index.searchScores twinSeq ["glass"] = [(1, twinScore), (2, twinScore)] := by
  unfold Index.searchScores
  simp only [List.foldl_cons, List.foldl_nil]
  rw [twinSeq_lookup]
  norm_num [List.zip, List.zipWith, addScore]

theorem twinPar_lookup :
    List.lookup "glass" twinPar.entries = some ⟨[1, 2], [(1:ℝ), (1:ℝ)]⟩ := by
  show List.lookup "glass" (ConcurrentIndex.add Index.empty twinDocs).entries = _
  rw [ConcurrentIndex.add, if_neg (by decide : ¬ twinDocs = [])]
  have hbase : List.lookup "glass" (rawAdd Index.empty twinDocs).entries =
      combine none (postingsFor twinDocs "glass") := by
    show List.lookup "glass" (twinDocs.foldl processDoc Index.empty.entries) = _
    rw [lookup_foldl_processDoc]
    rfl
  rw [hbase, postingsFor_twin]
  simp [combine]

theorem twinPar_docCount : twinPar.docCount = 2 := by
  show (ConcurrentIndex.add Index.empty twinDocs).docCount = 2
  rw [ConcurrentIndex.add, if_neg (by decide : ¬ twinDocs = [])]
  simp [rawAdd, Index.empty, twinDocs]

theorem twinPar_scores :
    ConcurrentIndex.searchScores twinPar ["glass"] = [(1, twinScore), (2, twinScore)] := by
  unfold ConcurrentIndex.searchScores
  simp only [List.foldl_cons, List.foldl_nil]
  rw [twinPar_lookup, twinPar_docCount]
  norm_num [List.zip, List.zipWith, addScore, twinScore]

/-- The twin results in ascending document id order. -/
noncomputable def twinAsc : List SearchResult :=
  [⟨1, twinScore⟩, ⟨2, twinScore⟩]

/-- The twin results in descending document id order. -/
noncomputable def twinDesc : List SearchResult :=
  [⟨2, twinScore⟩, ⟨1, twinScore⟩]

theorem twinSeq_mayReturn_asc : Index.SearchMayReturn twinSeq "glass" twinAsc := by
  rw [Index.SearchMayReturn, analyze_glass, if_neg (by simp), twinSeq_scores,
    if_neg (by simp)]
  refine ⟨by simp [twinAsc], ?_⟩
  simp [ScoreSorted, twinAsc, List.pairwise_cons]

theorem twinSeq_mayReturn_desc : Index.SearchMayReturn twinSeq "glass" twinDesc := by
  rw [Index.SearchMayReturn, analyze_glass, if_neg (by simp), twinSeq_scores,
    if_neg (by simp)]
  refine ⟨?_, ?_⟩
  · show twinDesc.Perm [⟨1, twinScore⟩, ⟨2, twinScore⟩]
    exact List.Perm.swap _ _ _
  · simp [ScoreSorted, twinDesc, List.pairwise_cons]

theorem twinPar_mayReturn_desc : ConcurrentIndex.SearchMayReturn twinPar "glass" twinDesc := by
  rw [ConcurrentIndex.SearchMayReturn, analyze_glass, if_neg (by simp), twinPar_scores,
    if_neg (by simp)]
  refine ⟨?_, ?_⟩
  · show twinDesc.Perm [⟨1, twinScore⟩, ⟨2, twinScore⟩]
    exact List.Perm.swap _ _ _
  · simp [ScoreSorted, twinDesc, List.pairwise_cons]

/-- Document a is ranked strictly before document b in a result list. -/
def rankedBefore (res : List SearchResult) (a b : Int) : Prop :=
  a ∈ res.map SearchResult.docID ∧ b ∈ res.map SearchResult.docID ∧
  (res.map SearchResult.docID).indexOf a < (res.map SearchResult.docID).indexOf b

/-- C1 counterexample: on the reachable index holding two equal-scored
documents 1 and 2, Search may return them as [2, 1] — a list the code can
produce (two elements, equal scores, map order [2, 1], no swap by the
comparator) in which equal scores are NOT in ascending document id
order. -/
theorem c1_counterexample :
    Index.SearchMayReturn twinSeq "glass" twinDesc ∧
    ¬ twinDesc.Pairwise (fun a b => a.score = b.score → a.docID ≤ b.docID) := by
  refine ⟨twinSeq_mayReturn_desc, ?_⟩
  intro h
  have h1 := (List.pairwise_cons.mp h).1 ⟨1, twinScore⟩ (by simp [twinDesc])
  have h2 : ((2:Int) ≤ 1) := h1 rfl
  norm_num at h2

/-- C5 counterexample: the same engine state and query admit two different
ordered result lists (the equal-score pair in either order), so repeated
runs are not guaranteed the identical ordered result list. -/
theorem c5_counterexample :
    Index.SearchMayReturn twinSeq "glass" twinAsc ∧
    Index.SearchMayReturn twinSeq "glass" twinDesc ∧
    twinAsc ≠ twinDesc := by
  refine ⟨twinSeq_mayReturn_asc, twinSeq_mayReturn_desc, ?_⟩
  intro h
  have := congrArg (fun l => l.map SearchResult.docID) h
  simp [twinAsc, twinDesc] at this

/-- C3 counterexample: on the identical two-document corpus and query, the
sequential engine may rank document 1 before 2 while the parallel engine
ranks 2 before 1 (both orders are sorted, the scores are tied), so the
per-run relative ranking of the two engines need not agree. -/
theorem c3_counterexample :
    Index.SearchMayReturn twinSeq "glass" twinAsc ∧
    ConcurrentIndex.SearchMayReturn twinPar "glass" twinDesc ∧
    rankedBefore twinAsc 1 2 ∧ ¬ rankedBefore twinDesc 1 2 := by
  refine ⟨twinSeq_mayReturn_asc, twinPar_mayReturn_desc, ?_, ?_⟩
  · refine ⟨by simp [twinAsc], by simp [twinAsc], ?_⟩
    show ([1, 2] : List Int).indexOf 1 < ([1, 2] : List Int).indexOf 2
    decide
  · intro h
    have h3 := h.2.2
    revert h3
    show ¬ (([2, 1] : List Int).indexOf 1 < ([2, 1] : List Int).indexOf 2)
    decide

theorem analyze_fish : analyze "fish" = ["fish"] := by decide

/-- A sequential index built by two successive Add calls. -/
noncomputable def twoAddIdx : Index :=
  (Index.empty.add [⟨"", "", "glass", 1⟩]).add [⟨"", "", "fish", 2⟩]

theorem firstAdd_lookup :
    List.lookup "glass" (Index.empty.add [⟨"", "", "glass", 1⟩]).entries =
      some ⟨[1], [idfVal 1 1]⟩ := by
  rw [lookup_add_empty]
  have hp : postingsFor [⟨"", "", "glass", 1⟩] "glass" = [(1, (1:ℝ))] := by
    simp [postingsFor, analyze_glass]
  rw [hp]
  simp

theorem firstAdd_docCount : (Index.empty.add [⟨"", "", "glass", 1⟩]).docCount = 1 := by
  rw [Index.add, if_neg (by decide : ¬ ([⟨"", "", "glass", 1⟩] : List Document) = [])]
  simp [calculateIDF, rawAdd, Index.empty]

theorem twoAddIdx_lookup :
    List.lookup "glass" twoAddIdx.entries = some ⟨[1], [idfVal 1 1 * idfVal 2 1]⟩ := by
  show List.lookup "glass"
    ((Index.empty.add [⟨"", "", "glass", 1⟩]).add [⟨"", "", "fish", 2⟩]).entries = _
  rw [Index.add, if_neg (by decide : ¬ ([⟨"", "", "fish", 2⟩] : List Document) = []),
    lookup_calculateIDF]
  have hraw : List.lookup "glass"
      (rawAdd (Index.empty.add [⟨"", "", "glass", 1⟩]) [⟨"", "", "fish", 2⟩]).entries =
      some ⟨[1], [idfVal 1 1]⟩ := by
    show List.lookup "glass"
      (List.foldl processDoc (Index.empty.add [⟨"", "", "glass", 1⟩]).entries _) = _
    rw [List.foldl_cons, List.foldl_nil, lookup_processDoc]
    rw [if_neg (by rw [analyze_fish]; decide), firstAdd_lookup]
  have hN : (rawAdd (Index.empty.add [⟨"", "", "glass", 1⟩]) [⟨"", "", "fish", 2⟩]).docCount
      = 2 := by
    show (Index.empty.add [⟨"", "", "glass", 1⟩]).docCount + 1 = 2
    rw [firstAdd_docCount]
  rw [hraw, hN]
  simp

theorem log_two_ne_zero : Real.log 2 ≠ 0 := by
  intro h
  rcases Real.log_eq_zero.mp h with h2 | h2 | h2 <;> norm_num at h2

theorem idfVal_two_one : idfVal 2 1 = 1 := by
  unfold idfVal
  norm_num

theorem idfVal_one_one : idfVal 1 1 = 1 - Real.log 2 := by
  unfold idfVal
  norm_num
  rw [one_div, Real.log_inv]
  ring

/-- C2 counterexample: on the second Add call the equality stored weight =
TF times IDF(final docCount) fails. After Add([doc 1 "glass"]) and then
Add([doc 2 "fish"]), the stored weight of "glass" for document 1 is
TF * idf(1,1) * idf(2,1) — the weight scaled by calculateIDF once per Add
call — whereas the claim requires TF * idf(2,1) = 1; the two differ since
log 2 is nonzero. -/
theorem c2_counterexample :
    List.lookup "glass" twoAddIdx.entries = some ⟨[1], [idfVal 1 1 * idfVal 2 1]⟩ ∧
    twoAddIdx.docCount = 2 ∧
    idfVal 1 1 * idfVal 2 1 ≠ (1 : ℝ) * idfVal 2 1 := by
  refine ⟨twoAddIdx_lookup, ?_, ?_⟩
  · show ((Index.empty.add [⟨"", "", "glass", 1⟩]).add [⟨"", "", "fish", 2⟩]).docCount = 2
    rw [Index.add, if_neg (by decide : ¬ ([⟨"", "", "fish", 2⟩] : List Document) = [])]
    show (rawAdd (Index.empty.add [⟨"", "", "glass", 1⟩]) [⟨"", "", "fish", 2⟩]).docCount = 2
    show (Index.empty.add [⟨"", "", "glass", 1⟩]).docCount + 1 = 2
    rw [firstAdd_docCount]
  · rw [idfVal_two_one, idfVal_one_one]
    intro h
    apply log_two_ne_zero
    linarith [h]

/-- C8 (amended): characterFilter discards exactly the tokens whose
trimmed form is shorter than 2 BYTES (Go's len counts UTF-8 bytes, not
characters): every surviving token is the both-ends trim of an input token
(so internal characters are preserved) and has UTF-8 length at least 2.
The original claim's "2 characters" reading is false: a one-character
multibyte token survives (see the counterexample). -/
theorem c8_trim_discard (tokens : List String) (t : String)
    (h : t ∈ characterFilter tokens) :
    2 ≤ utf8Len t.data ∧ ∃ u ∈ tokens, t = String.mk (trimChars u.data) := by
  unfold characterFilter at h
  rcases List.mem_filterMap.mp h with ⟨u, hu, hf⟩
  by_cases hc : utf8Len (trimChars u.data) < 2
  · rw [if_pos hc] at hf
    cases hf
  · rw [if_neg hc] at hf
    have ht : t = String.mk (trimChars u.data) := (Option.some_inj.mp hf).symm
    refine ⟨?_, u, hu, ht⟩
    rw [ht]
    exact not_lt.mp hc

/-- C8 counterexample: the token "é" is a single character (two UTF-8
bytes); it survives characterFilter, survives the whole pipeline, and
after indexing a document containing it, it is a retrievable term — so a
token shorter than 2 characters after trimming is not discarded. -/
theorem c8_counterexample :
    "é" ∈ characterFilter ["é"] ∧ ("é" : String).length < 2 ∧ "é" ∈ analyze "é" ∧
    List.lookup "é" ((Index.empty.add [⟨"", "", "é", 7⟩]).entries) ≠ none := by
  refine ⟨by decide, by decide, by decide, ?_⟩
  rw [lookup_add_empty]
  have hp : postingsFor [⟨"", "", "é", 7⟩] "é" = [(7, (1:ℝ))] := by
    simp [postingsFor, (by decide : analyze "é" = ["é"])]
  rw [hp]
  simp

/-- Witness for C1: on a concrete run (empty index, empty query) the
returned list satisfies the sortedness property. -/
theorem c1_search_sorted_witness :
    List.Pairwise (fun a b => SearchResult.score b ≤ SearchResult.score a)
      ([] : List SearchResult) :=
  (c1_search_sorted Index.empty "" []).1
    (by rw [Index.SearchMayReturn, if_pos analyze_blank])

/-- Witness for C4: the invariant holds on the empty index and is carried
through a concrete Add. -/
theorem c4_entry_lengths_witness : IndexWF (Index.empty.add twinDocs) :=
  (c4_entry_lengths Index.empty twinDocs [] "x" 0 0 ""
    (fun p hp => absurd hp (List.not_mem_nil p))
    (fun p hp => absurd hp (List.not_mem_nil p))).1

/-- Witness for C5: two concrete runs on the empty index and empty query
both return the empty list, a permutation of itself. -/
theorem c5_runs_perm_witness : ([] : List SearchResult).Perm [] :=
  (c5_runs_perm Index.empty "" [] []).1
    (by rw [Index.SearchMayReturn, if_pos analyze_blank])
    (by rw [Index.SearchMayReturn, if_pos analyze_blank])

/-- Witness for C6: a concrete zero-token document is skipped by the
per-document loop, and Add of the empty batch returns the index. -/
theorem c6_add_batch_witness :
    processDoc [] ⟨"", "", "", 9⟩ = [] ∧ Index.add Index.empty [] = Index.empty :=
  ⟨(c6_add_batch Index.empty [] ⟨"", "", "", 9⟩ []).2.2.2.2 analyze_blank,
   (c6_add_batch Index.empty [] ⟨"", "", "", 9⟩ []).1⟩

/-- Witness for C7: on the concrete empty index, a query whose tokens all
miss the mapping returns exactly the empty result in both engines. -/
theorem c7_empty_results_witness :
    (Index.SearchMayReturn Index.empty "fish" [] ↔ ([] : List SearchResult) = []) ∧
    (ConcurrentIndex.SearchMayReturn Index.empty "fish" [] ↔
      ([] : List SearchResult) = []) :=
  (c7_empty_results Index.empty "fish" [] "fish" [] []).2.1 (fun _ _ => rfl)

/-- Witness for C8: the concrete token "ab!" is trimmed to "ab", which is
kept with byte length at least 2. -/
theorem c8_trim_discard_witness :
    2 ≤ utf8Len ("ab" : String).data ∧
    ∃ u ∈ (["ab!"] : List String), ("ab" : String) = String.mk (trimChars u.data) :=
  c8_trim_discard ["ab!"] "ab" (by decide)

/-- Witness for C9: at the concrete point TF = 1, docCount = 2, the term
with one posting contributes at least as much as the term with two. -/
theorem c9_idf_monotone_witness : (1:ℝ) * idfVal 2 1 ≤ 1 * idfVal 2 0 :=
  c9_idf_monotone 1 2 0 1 (by norm_num) (by norm_num)
